import Mathlib

/-!
Verification development for the `go-pocket` command-line Pocket client.

The Go sources are shallowly embedded: pure string manipulation becomes
functions on `List Char`, the interactive cull pipeline becomes a trace
generator over explicit per-item environments (the HTTP responses and the
operator's confirmation answers), and the credential/authorization flows
become functions of their I/O outcomes.  All definitions are executable and
structurally recursive (fuel is used where the Go code skips several input
characters at once) so concrete runs reduce by `decide`/`rfl`.
-/

namespace Pocket

/-! ## List/string primitives mirroring the Go standard library -/

/-- Substring occurrence test: `occursB pat s` is `strings.Contains(s, pat)`.
For a nonempty pattern it scans every suffix for a prefix match. -/
def occursB (pat : List Char) : List Char → Bool
  | [] => pat.isEmpty
  | c :: cs => pat.isPrefixOf (c :: cs) || occursB pat cs

/-- `strings.Contains` on Lean strings. -/
def containsStr (s pat : String) : Bool := occursB pat.data s.data

/-- `strings.ReplaceAll` with fuel (the fuel bound `s.length` always
suffices because every step consumes at least one input character; the Go
function's empty-pattern insertion behaviour is never used here since every
pattern in the program is nonempty). -/
def replaceAllF (pat repl : List Char) : Nat → List Char → List Char
  | 0, s => s
  | f + 1, s =>
    match s with
    | [] => []
    | c :: cs =>
      if pat.isPrefixOf (c :: cs) then
        repl ++ replaceAllF pat repl f (cs.drop (pat.length - 1))
      else
        c :: replaceAllF pat repl f cs

/-- `strings.ReplaceAll(s, pat, repl)`. -/
def replaceAll (pat repl s : List Char) : List Char := replaceAllF pat repl s.length s

/-- `strings.TrimSuffix(s, pat)`: drops one copy of `pat` from the end when
present. -/
def trimSuffix (s pat : List Char) : List Char :=
  if pat.isSuffixOf s then s.take (s.length - pat.length) else s

/-- `strings.TrimRight(s, cutset)` for a one-character cutset: removes all
trailing copies of `c`. -/
def trimRightChar (c : Char) (s : List Char) : List Char :=
  (s.reverse.dropWhile (fun d => d == c)).reverse

/-- Whether the final character of `s` is `c` (the condition under which
`trimRightChar` does something). -/
def endsWithChar (c : Char) (s : List Char) : Bool :=
  match s.reverse with
  | [] => false
  | d :: _ => d == c

/-- The regexp `&+` replaced by a single `&`: collapses every run of
ampersands to one (fuelled; `s.length` always suffices). -/
def collapseAmpsF : Nat → List Char → List Char
  | 0, s => s
  | f + 1, s =>
    match s with
    | [] => []
    | [c] => [c]
    | a :: b :: rest =>
      if a == '&' && b == '&' then collapseAmpsF f ('&' :: rest)
      else a :: collapseAmpsF f (b :: rest)

/-- `regexp.MustCompile("&+").ReplaceAllString(s, "&")`. -/
def collapseAmps (s : List Char) : List Char := collapseAmpsF s.length s

/-- No two adjacent ampersands (the condition under which `collapseAmps`
is the identity). -/
def noDoubleAmp : List Char → Bool
  | a :: b :: rest => !(a == '&' && b == '&') && noDoubleAmp (b :: rest)
  | _ => true

/-- Decimal rendering of a `Nat` (fuelled, kernel-reducible stand-in for
Go's `%d`). -/
def digitChar (n : Nat) : Char := Char.ofNat (48 + n)

def natCharsAux : Nat → Nat → List Char
  | 0, _ => []
  | f + 1, n =>
    if n < 10 then [digitChar n]
    else natCharsAux f (n / 10) ++ [digitChar (n % 10)]

def natStr (n : Nat) : String := String.mk (natCharsAux (n + 1) n)

/-! ## CleanURL (main.go lines 48-64) -/

/-- The body of `CleanURL`, on character lists, step for step:
force HTTPS, trim a trailing `&a`, delete three youtube `feature`
parameters, collapse `&+` runs, trim trailing `&` and `/`. -/
def cleanURLChars (s : List Char) : List Char :=
  trimRightChar '/'
    (trimRightChar '&'
      (collapseAmps
        (replaceAll "feature=youtube_gdata".data []
          (replaceAll "feature=youtu.be".data []
            (replaceAll "feature=g-u".data []
              (trimSuffix
                (replaceAll "http://".data "https://".data s)
                "&a".data))))))

/-- `CleanURL` from main.go. -/
def CleanURL (u : String) : String := String.mk (cleanURLChars u.data)

/-! ## Identity lemmas for the CleanURL steps -/

theorem replaceAllF_of_not_occurs (pat repl : List Char) :
    ∀ (f : Nat) (s : List Char), occursB pat s = false → replaceAllF pat repl f s = s := by
  intro f
  induction f with
  | zero => intro s _; rfl
  | succ f ih =>
    intro s h
    cases s with
    | nil => rfl
    | cons c cs =>
      have h' : pat.isPrefixOf (c :: cs) = false ∧ occursB pat cs = false := by
        simpa [occursB, Bool.or_eq_false_iff] using h
      simp [replaceAllF, h'.1, ih cs h'.2]

theorem replaceAll_of_not_occurs (pat repl s : List Char) (h : occursB pat s = false) :
    replaceAll pat repl s = s :=
  replaceAllF_of_not_occurs pat repl s.length s h

theorem trimSuffix_of_not_suffix (s pat : List Char) (h : pat.isSuffixOf s = false) :
    trimSuffix s pat = s := by
  unfold trimSuffix
  simp [h]

theorem trimRightChar_of_not_endsWith (c : Char) (s : List Char)
    (h : endsWithChar c s = false) : trimRightChar c s = s := by
  cases hs : s.reverse with
  | nil =>
    have hse : s = [] := by simpa using congrArg List.reverse hs
    subst hse; rfl
  | cons d t =>
    have hd : (d == c) = false := by
      simpa [endsWithChar, hs] using h
    have hsv : s = (d :: t).reverse := by rw [← hs, List.reverse_reverse]
    unfold trimRightChar
    rw [hs, List.dropWhile_cons, hd]
    simp [← hsv]

theorem collapseAmpsF_of_noDoubleAmp :
    ∀ (f : Nat) (s : List Char), noDoubleAmp s = true → collapseAmpsF f s = s := by
  intro f
  induction f with
  | zero => intro s _; rfl
  | succ f ih =>
    intro s h
    match s with
    | [] => rfl
    | [c] => rfl
    | a :: b :: rest =>
      have hh : (!(a == '&' && b == '&') && noDoubleAmp (b :: rest)) = true := h
      cases hab : (a == '&' && b == '&') with
      | false =>
        rw [hab] at hh
        have h2 : noDoubleAmp (b :: rest) = true := by simpa using hh
        simp [collapseAmpsF, hab, ih (b :: rest) h2]
      | true =>
        rw [hab] at hh
        simp at hh

theorem collapseAmps_of_noDoubleAmp (s : List Char) (h : noDoubleAmp s = true) :
    collapseAmps s = s :=
  collapseAmpsF_of_noDoubleAmp s.length s h

/-- A canonical output is *normal* when none of the CleanURL rewrite steps
can still change it: no `http://`, no trailing `&a`, none of the three
feature fragments, no double ampersand, and no trailing `&` or `/`. -/
def cleanNormal (s : List Char) : Bool :=
  !occursB "http://".data s
    && !("&a".data.isSuffixOf s)
    && !occursB "feature=g-u".data s
    && !occursB "feature=youtu.be".data s
    && !occursB "feature=youtube_gdata".data s
    && noDoubleAmp s
    && !endsWithChar '&' s
    && !endsWithChar '/' s

theorem cleanURLChars_eq_self (s : List Char) (h : cleanNormal s = true) :
    cleanURLChars s = s := by
  have h' := h
  simp only [cleanNormal, Bool.and_eq_true, Bool.not_eq_true'] at h'
  obtain ⟨⟨⟨⟨⟨⟨⟨h1, h2⟩, h3⟩, h4⟩, h5⟩, h6⟩, h7⟩, h8⟩ := h'
  unfold cleanURLChars
  rw [replaceAll_of_not_occurs _ _ _ h1, trimSuffix_of_not_suffix _ _ h2,
    replaceAll_of_not_occurs _ _ _ h3, replaceAll_of_not_occurs _ _ _ h4,
    replaceAll_of_not_occurs _ _ _ h5, collapseAmps_of_noDoubleAmp _ h6,
    trimRightChar_of_not_endsWith _ _ h7, trimRightChar_of_not_endsWith _ _ h8]

/-! ## C5 / C6: CleanURL properties -/

/-- C5 counterexample: `CleanURL` is not idempotent.  `TrimSuffix` removes a
single trailing `"&a"` per pass, so `"x&a&a"` cleans to `"x&a"`, which cleans
again to `"x"`. -/
theorem cleanurl_not_idempotent :
    CleanURL (CleanURL "x&a&a") ≠ CleanURL "x&a&a" := by decide

/-- C5 (amended): `CleanURL` is idempotent on every input whose canonical
output is normal — contains no `http://`, no trailing `&a`, none of the three
feature fragments, no double ampersand, and no trailing `&` or `/` — i.e.
whenever the first pass leaves nothing for a second pass to rewrite. -/
theorem data_mk (l : List Char) : (String.mk l).data = l := rfl

theorem cleanurl_idempotent_on_normal_outputs (u : String)
    (h : cleanNormal (cleanURLChars u.data) = true) :
    CleanURL (CleanURL u) = CleanURL u := by
  simp only [CleanURL, data_mk]
  rw [cleanURLChars_eq_self _ h]

theorem cleanurl_idempotent_on_normal_outputs_app :
    cleanNormal (cleanURLChars "http://a.com/x/".data) = true
      ∧ CleanURL (CleanURL "http://a.com/x/") = CleanURL "http://a.com/x/" :=
  ⟨by decide, cleanurl_idempotent_on_normal_outputs "http://a.com/x/" (by decide)⟩

/-- C6 counterexample: the two URLs from the spec do NOT canonicalize
equally.  Removing `feature=youtu.be` leaves `...a?&x=1`, and the `&+`
collapse does not delete a lone `&` after `?`. -/
theorem cleanurl_youtube_params_not_equal :
    CleanURL "http://example.com/a?feature=youtu.be&x=1"
      ≠ CleanURL "https://example.com/a?x=1" := by decide

/-- C6 (amended): what `CleanURL` actually produces on the two spec URLs:
`https://example.com/a?&x=1` and `https://example.com/a?x=1`, which differ,
so the cull pipeline does not treat them as duplicates. -/
theorem cleanurl_youtube_params_values :
    CleanURL "http://example.com/a?feature=youtu.be&x=1" = "https://example.com/a?&x=1"
      ∧ CleanURL "https://example.com/a?x=1" = "https://example.com/a?x=1" := by decide

/-! ## Data model (api.Item, api.Action, api/modify.go) -/

/-- `api.Item`, restricted to the fields `commandList` reads: `ItemID`,
`URL()` and `SortId`. -/
structure Item where
  itemID : Int
  url : String
  sortId : Int
deriving DecidableEq, Repr

/-- `api.Action` (modify.go). -/
structure Action where
  action : String
  itemID : Int
deriving DecidableEq, Repr

/-- `api.NewDeleteAction`. -/
def NewDeleteAction (itemID : Int) : Action := ⟨"delete", itemID⟩

/-- `api.NewArchiveAction`. -/
def NewArchiveAction (itemID : Int) : Action := ⟨"archive", itemID⟩

/-! ## Liveness probe (main.go lines 241-276) -/

/-- An HTTP response as the cull code observes it: the status code and text,
the bytes `io.ReadAll(chk.Body)` yields together with whether it returned an
error, and `chk.Request.URL.String()` (the URL after redirects). -/
structure Resp where
  statusCode : Nat
  status : String
  body : String
  readAllErr : Option String
  finalURL : String
deriving DecidableEq, Repr

/-- Outcome of one `http.Head`/`http.Get` call.  With Go's default client a
non-nil error comes with a nil `*http.Response` (the only exception is a
failed redirect policy, whose response has an already-closed body that reads
back empty with an error, so it can never satisfy the phrase check below;
we therefore model error and response as mutually exclusive). -/
inductive FetchResult
  | ok (r : Resp)
  | fail (errMsg : String)
deriving DecidableEq, Repr

/-- The network behaviour of one item's probe: what `http.Head` returns and,
if it fails, what the `http.Get` fallback returns. -/
structure HttpEnv where
  headRes : FetchResult
  getRes : FetchResult
deriving DecidableEq, Repr

/-- `strings.HasSuffix(err.Error(), ": EOF")`. -/
def hasEOFSuffix (e : String) : Bool := ": EOF".data.isSuffixOf e.data

/-- Lines 242-257 of main.go: HEAD, GET fallback on error, then the
"page removed" body check.  Returns the pair `(chk, err)` the code holds
after line 257, or `none` when the code dereferences a nil response
(`io.ReadAll(chk.Body)` with `chk == nil`, a runtime panic): that happens
whenever both HEAD and GET fail with an error not ending in ": EOF". -/
def probeCheck (env : HttpEnv) : Option (Option Resp × Option String) :=
  -- chk, err := http.Head(item.URL())
  let first : Option Resp × Option String :=
    match env.headRes with
    | .ok r => (some r, none)
    | .fail e => (none, some e)
  -- if err != nil { chk, err = http.Get(item.URL()) }
  let second : Option Resp × Option String :=
    match first.2 with
    | none => first
    | some _ =>
      match env.getRes with
      | .ok r => (some r, none)
      | .fail e => (none, some e)
  -- if err != nil && !strings.HasSuffix(err.Error(), ": EOF") { body check }
  match second.2 with
  | none => some second
  | some e =>
    if hasEOFSuffix e then some second
    else
      match second.1 with
      | none => none          -- chk.Body on a nil chk: panic
      | some r =>
        -- if body, err := io.ReadAll(chk.Body); err != nil && (contains ...)
        if r.readAllErr.isSome
            && (containsStr r.body "isn't available anymore"
              || containsStr r.body "this page doesn") then
          some (some { r with statusCode := 404, status := "Not Available" }, some e)
        else
          some second

/-! ## Cull pipeline (commandList, main.go lines 182-287) -/

/-- The non-network inputs of one item's processing: the operator's answers
to the `Open?` and `Delete?` prompts and the error outcomes of the Modify
calls the item can trigger (the duplicate auto-delete and the confirmed
delete). -/
structure ItemEnv where
  http : HttpEnv
  openAnswer : Bool
  deleteAnswer : Bool
  modifyErr : Option String
  dupModifyErr : Option String
deriving DecidableEq, Repr

/-- Observable steps of `commandList`.  `render` is the `"i/N "` counter
plus the item template execution; `prompt` is one `confirm(msg)` call;
`probeHead` is the `http.Head` probe; `modify` is one `client.Modify` call
with its action list; `modifyErrReport` is the `fmt.Printf("%#v, %v\n", ...)`
error report; `panic` is the nil-response dereference. -/
inductive Event
  | render (i total : Nat) (itemID : Int)
  | prompt (msg : String)
  | probeHead (url : String)
  | modify (acts : List Action)
  | modifyErrReport (e : String)
  | printLine (s : String)
  | openBrowser (url : String)
  | panic
deriving DecidableEq, Repr

/-- The two `commandList` flags the cull logic reads (`--delete`, `--cull`). -/
structure Config where
  deleteAll : Bool
  cull : Bool
deriving DecidableEq, Repr

/-- Lines 206-218: the `--delete` branch.  One confirmation over the whole
batch; on yes, one bulk Modify with one delete action per item. -/
def deleteAllBranch (items : List Item) (answer : Bool) (modErr : Option String) :
    List Event :=
  Event.prompt ("Really delete " ++ natStr items.length ++ " items?") ::
    (if answer then
      Event.modify (items.map (fun it => NewDeleteAction it.itemID)) ::
        (match modErr with
        | some e => [Event.modifyErrReport e]
        | none => [])
    else [])

/-- Lines 222-286: processing of a single item.  Returns the events emitted,
the updated seen-URL set, and whether the process panicked (aborting the
whole run).  Blank-line `fmt.Println("")` separators are not recorded. -/
def processItem (conf : Config) (idx total : Nat) (item : Item) (env : ItemEnv)
    (seen : List String) : List Event × List String × Bool :=
  let render := Event.render (idx + 1) total item.itemID
  let url := CleanURL item.url
  if seen.contains url then
    -- lines 229-237: duplicate: auto-delete, report a Modify error, continue
    (render
        :: Event.printLine "\nItem already seen. Deleting..."
        :: Event.modify [NewDeleteAction item.itemID]
        :: (match env.dupModifyErr with
          | some e => [Event.modifyErrReport e]
          | none => []),
      seen, false)
  else
    let seen' := seen ++ [url]
    if conf.cull then
      let headEvents :=
        Event.probeHead item.url ::
          (match env.http.headRes with
          | .ok _ => []
          | .fail e1 =>
            Event.printLine ("\nGot an err when HEADing: " ++ e1 ++ ", GETting instead...\n")
              :: (match env.http.getRes with
                | .ok _ => []
                | .fail e2 => [Event.printLine ("\n" ++ e2 ++ "\n")]))
      match probeCheck env.http with
      | none => (render :: headEvents ++ [Event.panic], seen', true)
      | some (chk, err) =>
        -- lines 258-276: alive check / status report
        let statusEvents :=
          match chk, err with
          | some r, none =>
            if r.statusCode ≤ 308 then
              Event.printLine (" " ++ r.status ++ "\n")
                :: Event.prompt (if r.finalURL ≠ item.url
                    then "Open " ++ r.finalURL ++ "?" else "Open?")
                :: (if env.openAnswer then [Event.openBrowser r.finalURL] else [])
            else
              [Event.printLine ("\nStatus was " ++ r.status ++ "\n")]
          | some r, some e =>
            if hasEOFSuffix e then []
            else [Event.printLine ("\nStatus was " ++ r.status ++ "\n")]
          | none, _ => []
        -- lines 277-283: unconditional delete confirmation
        let deleteEvents :=
          Event.prompt "Delete?" ::
            (if env.deleteAnswer then
              Event.modify [NewDeleteAction item.itemID]
                :: (match env.modifyErr with
                  | some e => [Event.modifyErrReport e]
                  | none => [])
            else [])
        (render :: headEvents ++ statusEvents ++ deleteEvents, seen', false)
    else
      ([render], seen', false)

/-- The `for i, item := range items` loop, threading the seen set; a panic
during an item aborts the remaining items. -/
def cullLoop (conf : Config) (total : Nat) :
    List (Item × ItemEnv) → Nat → List String → List Event × List String
  | [], _, seen => ([], seen)
  | (item, env) :: rest, idx, seen =>
    let step := processItem conf idx total item env seen
    if step.2.2 then (step.1, step.2.1)
    else
      let next := cullLoop conf total rest (idx + 1) step.2.1
      (step.1 ++ next.1, next.2)

/-- Insertion sort by `SortId`, an implementation of `sort.Sort(bySortID(items))`
(main.go lines 146-150 and 219); Go's sort is unspecified between equal keys,
and every claim below uses distinct keys.  Each item carries its environment. -/
def insertBySortId (x : Item × ItemEnv) :
    List (Item × ItemEnv) → List (Item × ItemEnv)
  | [] => [x]
  | y :: ys =>
    if x.1.sortId < y.1.sortId then x :: y :: ys else y :: insertBySortId x ys

def sortBySortId (l : List (Item × ItemEnv)) : List (Item × ItemEnv) :=
  l.foldr insertBySortId []

/-- `commandList` (main.go lines 182-287) from the point where the retrieved
items are in hand: the `--delete` branch, else sort + per-item loop.
Returns the emitted events and the final seen-URL set. -/
def commandList (conf : Config) (pairs : List (Item × ItemEnv))
    (deleteAllAnswer : Bool) (deleteAllModifyErr : Option String) :
    List Event × List String :=
  if conf.deleteAll then
    (deleteAllBranch (pairs.map Prod.fst) deleteAllAnswer deleteAllModifyErr, [])
  else
    let sorted := sortBySortId pairs
    cullLoop conf sorted.length sorted 0 []

/-- The confirm prompts of a trace, in order. -/
def promptsOf (tr : List Event) : List String :=
  tr.filterMap (fun e => match e with | .prompt m => some m | _ => none)

/-- The Modify calls of a trace, in order. -/
def modifiesOf (tr : List Event) : List (List Action) :=
  tr.filterMap (fun e => match e with | .modify acts => some acts | _ => none)

/-- The HEAD probes of a trace, in order. -/
def probesOf (tr : List Event) : List String :=
  tr.filterMap (fun e => match e with | .probeHead u => some u | _ => none)

/-! ## Concrete fixtures for the cull claims -/

/-- A 200 GET whose body carries the "page removed" phrase. -/
def respC1 : Resp :=
  { statusCode := 200, status := "200 OK",
    body := "Sorry, this page isn't available anymore.",
    readAllErr := none, finalURL := "https://ex.com/gone" }

/-- HEAD fails, the GET fallback returns `respC1`. -/
def envC1 : HttpEnv :=
  { headRes := .fail "read tcp: connection reset by peer", getRes := .ok respC1 }

/-- A transport error whose text does not end in ": EOF". -/
def errNoEOF : String := "dial tcp 93.184.216.34:443: connect: connection refused"

/-- Both HEAD and GET fail with `errNoEOF`; answers/modify outcomes unused. -/
def envBad : ItemEnv :=
  { http := { headRes := .fail errNoEOF, getRes := .fail errNoEOF },
    openAnswer := false, deleteAnswer := false, modifyErr := none, dupModifyErr := none }

/-- An uneventful 200 response used where probing succeeds or never runs. -/
def respOK : Resp :=
  { statusCode := 200, status := "200 OK", body := "", readAllErr := none,
    finalURL := "https://b.example/two" }

def envGood : ItemEnv :=
  { http := { headRes := .ok respOK, getRes := .ok respOK },
    openAnswer := false, deleteAnswer := false, modifyErr := none, dupModifyErr := none }

def itemA : Item := ⟨1, "https://a.example/one", 1⟩
def itemB : Item := ⟨2, "https://b.example/two", 2⟩

/-- `--cull` without `--delete`. -/
def confCull : Config := ⟨false, true⟩

/-- Plain `list` mode: neither `--cull` nor `--delete`. -/
def confPlain : Config := ⟨false, false⟩

/-- The C4 scenario items. -/
def item1 : Item := ⟨1, "https://a.com/x", 2⟩
def item2 : Item := ⟨2, "http://a.com/x", 1⟩

/-! ## C1: the body-phrase override never fires on a 200 response -/

/-- C1 (code bug): a GET answering HTTP 200 with a body containing
"isn't available anymore" is NOT reclassified to 404 — `probeCheck` keeps
the response exactly as received (`statusCode = 200`), because the override
block at lines 250-256 runs only under a non-nil, non-EOF transport error
and additionally requires `io.ReadAll` itself to fail. -/
theorem cull_probe_keeps_200_despite_removed_phrase :
    containsStr respC1.body "isn't available anymore" = true
      ∧ probeCheck envC1 = some (some respC1, none)
      ∧ respC1.statusCode = 200 := by decide

/-! ## C2: a double transport failure panics and aborts the batch -/

/-- C2 (code bug): when an item's HEAD and GET both fail with an error not
ending in ": EOF", line 251 reads `chk.Body` with `chk == nil` and the
process panics: the trace ends in `panic` and the second item is never
rendered or probed, contradicting per-item failure tolerance. -/
theorem cull_double_transport_failure_aborts_batch :
    commandList confCull [(itemA, envBad), (itemB, envGood)] false none
      = ([Event.render 1 2 1,
          Event.probeHead "https://a.example/one",
          Event.printLine ("\nGot an err when HEADing: " ++ errNoEOF ++ ", GETting instead...\n"),
          Event.printLine ("\n" ++ errNoEOF ++ "\n"),
          Event.panic],
        ["https://a.example/one"]) := by decide

/-! ## C3: the delete-all branch -/

/-- C3: with `--delete` set, `commandList` issues exactly one confirmation
prompt covering the batch; on yes it issues exactly one Modify call holding
one delete action per retrieved item (N actions for N items), on no none;
and it never probes (nor, as the single bulk call shows, deduplicates). -/
theorem deleteall_one_prompt_one_bulk_modify
    (conf : Config) (pairs : List (Item × ItemEnv)) (ans : Bool) (merr : Option String)
    (hconf : conf.deleteAll = true) :
    promptsOf (commandList conf pairs ans merr).1
        = ["Really delete " ++ natStr pairs.length ++ " items?"]
      ∧ probesOf (commandList conf pairs ans merr).1 = []
      ∧ (ans = true →
          modifiesOf (commandList conf pairs ans merr).1
              = [(pairs.map Prod.fst).map (fun it => NewDeleteAction it.itemID)]
            ∧ ((pairs.map Prod.fst).map (fun it => NewDeleteAction it.itemID)).length
              = pairs.length)
      ∧ (ans = false → modifiesOf (commandList conf pairs ans merr).1 = []) := by
  have hcl : (commandList conf pairs ans merr).1
      = deleteAllBranch (pairs.map Prod.fst) ans merr := by
    simp [commandList, hconf]
  rw [hcl]
  unfold deleteAllBranch
  refine ⟨?_, ?_, ?_, ?_⟩
  · cases ans <;> cases merr <;> simp [promptsOf, List.length_map]
  · cases ans <;> cases merr <;> simp [probesOf]
  · intro ha; subst ha
    cases merr <;> simp [modifiesOf, List.length_map]
  · intro ha; subst ha
    cases merr <;> simp [modifiesOf]

theorem deleteall_one_prompt_one_bulk_modify_app :
    promptsOf (commandList ⟨true, false⟩ [(itemA, envGood), (itemB, envGood)] true none).1
        = ["Really delete " ++ natStr 2 ++ " items?"]
      ∧ modifiesOf (commandList ⟨true, false⟩ [(itemA, envGood), (itemB, envGood)] true none).1
        = [[NewDeleteAction 1, NewDeleteAction 2]] := by
  have h := deleteall_one_prompt_one_bulk_modify ⟨true, false⟩
    [(itemA, envGood), (itemB, envGood)] true none rfl
  exact ⟨h.1, ((h.2.2.1 rfl).1.trans (by decide))⟩

/-! ## C4: the duplicate-elimination scenario -/

/-- C4: on items `{id 1, https://a.com/x, sort 2}` and
`{id 2, http://a.com/x, sort 1}` in plain (non-delete-all, non-cull) mode,
item 2 is processed first (ascending sort), kept, and its canonical URL
`https://a.com/x` recorded; item 1's URL canonicalizes identically, so it is
auto-deleted by a single-action Modify with no prompt and no probe. -/
theorem cull_duplicate_auto_deleted_concrete :
    commandList confPlain [(item1, envGood), (item2, envGood)] false none
      = ([Event.render 1 2 2,
          Event.render 2 2 1,
          Event.printLine "\nItem already seen. Deleting...",
          Event.modify [NewDeleteAction 1]],
        ["https://a.com/x"]) := by decide

/-! ## Credential store (restoreAccessToken, main.go lines 355-376) -/

/-- `auth.Authorization`: the persisted credential (fields opaque to the
logic under proof). -/
structure Auth where
  accessToken : String
  username : String
deriving DecidableEq, Repr

/-- The I/O outcomes `restoreAccessToken` can observe: what loading
`auth.json` yields, what `obtainAccessToken` yields if invoked, and the
outcome of `saveJSONToFile` (`some e` = write error). -/
structure RestoreEnv where
  loadRes : Except String Auth
  obtainRes : Except String Auth
  saveErr : Option String
deriving Repr

/-- `restoreAccessToken`, returning Go's `(*auth.Authorization, error)` pair
as `(Option Auth × Option String)`.  On a load failure it runs the handshake;
if that succeeds but the save fails, line 371 is `return nil, err`. -/
def restoreAccessToken (env : RestoreEnv) : Option Auth × Option String :=
  match env.loadRes with
  | .ok tok => (some tok, none)
  | .error _ =>
    match env.obtainRes with
    | .error e => (none, some e)
    | .ok tok =>
      match env.saveErr with
      | some e => (none, some e)
      | none => (some tok, none)

/-- Load fails, the handshake succeeds, the save fails. -/
def envC7 : RestoreEnv :=
  { loadRes := .error "open auth.json: no such file or directory",
    obtainRes := .ok ⟨"tok", "user"⟩,
    saveErr := some "open auth.json: permission denied" }

/-- C7 counterexample: with a successful handshake and a failing save,
`restoreAccessToken` returns `(nil, err)` — the obtained in-memory
credential is NOT returned alongside the error, contrary to the claim. -/
theorem restore_persistence_failure_drops_token :
    envC7.obtainRes = Except.ok ⟨"tok", "user"⟩
      ∧ restoreAccessToken envC7 = (none, some "open auth.json: permission denied")
      ∧ (none : Option Auth) ≠ some ⟨"tok", "user"⟩ :=
  ⟨rfl, rfl, by decide⟩

/-- C7 (amended): when the handshake succeeds but persisting the credential
fails, `restoreAccessToken` surfaces the persistence failure as an error and
returns a nil credential — the in-memory credential is discarded, and the
caller (`main`) treats the failure as fatal. -/
theorem restore_persistence_failure_returns_none
    (env : RestoreEnv) (lmsg : String) (tok : Auth) (e : String)
    (hload : env.loadRes = .error lmsg)
    (hobtain : env.obtainRes = .ok tok)
    (hsave : env.saveErr = some e) :
    restoreAccessToken env = (none, some e) := by
  unfold restoreAccessToken
  rw [hload, hobtain, hsave]

theorem restore_persistence_failure_returns_none_app :
    restoreAccessToken envC7 = (none, some "open auth.json: permission denied") :=
  restore_persistence_failure_returns_none envC7
    "open auth.json: no such file or directory" ⟨"tok", "user"⟩
    "open auth.json: permission denied" rfl rfl rfl

/-! ## Authorization flow (obtainAccessToken, main.go lines 378-406) -/

/-- The local callback handler (lines 381-390): a `/favicon.ico` request is
answered 404 and does NOT signal completion; any other request is answered
"Authorized." and sends on the channel. -/
def callbackHandler (path : String) : String × Bool :=
  if path = "/favicon.ico" then ("Not Found", false) else ("Authorized.", true)

/-- Whether a request to `path` delivers the completion signal. -/
def handlerSignals (path : String) : Bool := (callbackHandler path).2

/-- The requests the listener serves before the blocked `<-ch` receive
completes: everything up to and including the first signalling request.
The Bool records whether a signal was ever delivered (`false` = the receive
blocks forever). -/
def serveUntilSignal : List String → List String × Bool
  | [] => ([], false)
  | p :: ps =>
    if handlerSignals p then ([p], true)
    else
      let r := serveUntilSignal ps
      (p :: r.1, r.2)

/-- Steps of `obtainAccessToken` as observable events. -/
inductive AuthEvent
  | requestToken     -- auth.ObtainRequestToken
  | printAuthURL     -- fmt.Println(auth.GenerateAuthorizationURL(...))
  | serve (path : String)
  | exchange         -- auth.ObtainAccessToken
deriving DecidableEq, Repr

/-- The event trace of `obtainAccessToken` given the sequence of requests
that reach the local listener: obtain a request token, print the
authorization URL, serve requests until one signals, then (and only then)
exchange the request token for an access token. -/
def obtainTrace (paths : List String) : List AuthEvent :=
  let r := serveUntilSignal paths
  [AuthEvent.requestToken, AuthEvent.printAuthURL]
    ++ r.1.map AuthEvent.serve
    ++ (if r.2 then [AuthEvent.exchange] else [])

theorem serveUntilSignal_all_unqualified (qs : List String)
    (h : ∀ p ∈ qs, handlerSignals p = false) :
    (serveUntilSignal qs).2 = false := by
  induction qs with
  | nil => rfl
  | cons p ps ih =>
    have hp : handlerSignals p = false := h p (List.mem_cons_self p ps)
    have hps : ∀ q ∈ ps, handlerSignals q = false :=
      fun q hq => h q (List.mem_cons_of_mem p hq)
    simp [serveUntilSignal, hp, ih hps]

theorem exchange_not_in_unsignalled (qs : List String)
    (h : ∀ p ∈ qs, handlerSignals p = false) :
    AuthEvent.exchange ∉ obtainTrace qs := by
  simp only [obtainTrace]
  rw [serveUntilSignal_all_unqualified qs h]
  intro hmem
  simp only [List.mem_append, List.mem_cons, List.mem_map, if_neg Bool.false_ne_true] at hmem
  rcases hmem with (h1 | h1 | h1) | ⟨p, _, h1⟩ | h1 <;> simp_all

/-- C8: the token exchange happens only after the listener has received a
qualifying (non-favicon) request: whenever `exchange` appears in the trace,
the served requests end with one for which the handler signals, every
earlier one is non-signalling (e.g. favicon probes), and `exchange` is
positioned after all of them; moreover a run receiving only non-signalling
requests (such as `/favicon.ico`) never reaches the exchange. -/
theorem exchange_only_after_qualifying_request (paths : List String)
    (h : (serveUntilSignal paths).2 = true) :
    (∃ pre q, (serveUntilSignal paths).1 = pre ++ [q]
        ∧ handlerSignals q = true
        ∧ (∀ p ∈ pre, handlerSignals p = false)
        ∧ obtainTrace paths
          = [AuthEvent.requestToken, AuthEvent.printAuthURL]
            ++ (pre ++ [q]).map AuthEvent.serve ++ [AuthEvent.exchange])
      ∧ ∀ qs : List String, (∀ p ∈ qs, handlerSignals p = false) →
        AuthEvent.exchange ∉ obtainTrace qs := by
  refine ⟨?_, exchange_not_in_unsignalled⟩
  induction paths with
  | nil => simp [serveUntilSignal] at h
  | cons p ps ih =>
    cases hp : handlerSignals p with
    | true =>
      refine ⟨[], p, ?_, hp, by simp, ?_⟩
      · simp [serveUntilSignal, hp]
      · simp [obtainTrace, serveUntilSignal, hp]
    | false =>
      have h' : (serveUntilSignal ps).2 = true := by
        simpa [serveUntilSignal, hp] using h
      obtain ⟨pre, q, h1, h2, h3, _⟩ := ih h'
      refine ⟨p :: pre, q, ?_, h2, ?_, ?_⟩
      · simp [serveUntilSignal, hp, h1]
      · intro x hx
        rcases List.mem_cons.mp hx with hx | hx
        · subst hx; exact hp
        · exact h3 x hx
      · simp [obtainTrace, serveUntilSignal, hp, h1, h']

theorem exchange_only_after_qualifying_request_app :
    (∃ pre q, (serveUntilSignal ["/favicon.ico", "/approved"]).1 = pre ++ [q]
        ∧ handlerSignals q = true
        ∧ (∀ p ∈ pre, handlerSignals p = false)
        ∧ obtainTrace ["/favicon.ico", "/approved"]
          = [AuthEvent.requestToken, AuthEvent.printAuthURL]
            ++ (pre ++ [q]).map AuthEvent.serve ++ [AuthEvent.exchange])
      ∧ ∀ qs : List String, (∀ p ∈ qs, handlerSignals p = false) →
        AuthEvent.exchange ∉ obtainTrace qs :=
  exchange_only_after_qualifying_request ["/favicon.ico", "/approved"] (by decide)

/-! ## Remote API gateway (doJSON, api/api.go lines 36-61) -/

/-- A remote response as `doJSON` observes it: status code and the eight
headers it formats into the error. -/
structure APIResponse where
  statusCode : Nat
  xError : List Char
  xErrorCode : List Char
  xLimitUserLimit : List Char
  xLimitUserRemaining : List Char
  xLimitUserReset : List Char
  xLimitKeyLimit : List Char
  xLimitKeyRemaining : List Char
  xLimitKeyReset : List Char
deriving DecidableEq, Repr

/-- One character rendered by Go's `%q` (`strconv.Quote`): quote, backslash
and the common control characters are escaped.  The remaining control and
non-printable escapes (`\x..` forms) are elided: no value in this
development contains such characters, and they too would be altered. -/
def goEscapeChar (c : Char) : List Char :=
  if c = '"' then ['\\', '"']
  else if c = '\\' then ['\\', '\\']
  else if c = '\n' then ['\\', 'n']
  else if c = '\t' then ['\\', 't']
  else if c = '\r' then ['\\', 'r']
  else [c]

def goEscape : List Char → List Char
  | [] => []
  | c :: cs => goEscapeChar c ++ goEscape cs

/-- Go's `%q` on a string value. -/
def goQuote (v : List Char) : List Char := '"' :: goEscape v ++ ['"']

/-- Printable ASCII that `%q` passes through unchanged. -/
def goPlainChar (c : Char) : Bool :=
  !(c == '"') && !(c == '\\') && decide (32 ≤ c.toNat) && decide (c.toNat ≤ 126)

def cleanVal (v : List Char) : Bool := v.all goPlainChar

/-- The error text `doJSON` builds on a non-200 status (api.go lines 46-56). -/
def doJSONErrMsg (r : APIResponse) : List Char :=
  "got response ".data ++ natCharsAux (r.statusCode + 1) r.statusCode
    ++ "; X-Error=".data ++ goQuote r.xError
    ++ "; X-Error-Code=".data ++ goQuote r.xErrorCode
    ++ "; X-Limit-User-Limit=".data ++ goQuote r.xLimitUserLimit
    ++ "; X-Limit-User-Remaining=".data ++ goQuote r.xLimitUserRemaining
    ++ "; X-Limit-User-Reset=".data ++ goQuote r.xLimitUserReset
    ++ "; X-Limit-Key-Limit=".data ++ goQuote r.xLimitKeyLimit
    ++ "; X-Limit-Key-Remaining=".data ++ goQuote r.xLimitKeyRemaining
    ++ "; X-Limit-Key-Reset=".data ++ goQuote r.xLimitKeyReset

/-- The status-check part of `doJSON`: `some errText` on a non-200 status,
`none` (proceed to decode the body) on 200.  Transport failures of
`DefaultClient.Do` return before this point and are not modelled. -/
def doJSON (r : APIResponse) : Option (List Char) :=
  if r.statusCode = 200 then none else some (doJSONErrMsg r)

/-! ### Substring lemmas for the error message -/

theorem isPrefixOf_append_self (l t : List Char) : l.isPrefixOf (l ++ t) = true := by
  induction l with
  | nil => cases t <;> rfl
  | cons c cs ih => simp [List.isPrefixOf, ih]

theorem occursB_of_isPrefixOf (pat s : List Char) (h : pat.isPrefixOf s = true) :
    occursB pat s = true := by
  cases s with
  | nil =>
    cases pat with
    | nil => rfl
    | cons c cs => simp [List.isPrefixOf] at h
  | cons c cs => simp [occursB, h]

theorem occursB_cons (c : Char) (pat s : List Char) (h : occursB pat s = true) :
    occursB pat (c :: s) = true := by
  simp [occursB, h]

theorem occursB_append_of_right (pat x t : List Char) (h : occursB pat t = true) :
    occursB pat (x ++ t) = true := by
  induction x with
  | nil => simpa using h
  | cons c cs ih => exact occursB_cons c pat (cs ++ t) ih

theorem goEscapeChar_of_plain (c : Char) (h : goPlainChar c = true) :
    goEscapeChar c = [c] := by
  simp only [goPlainChar, Bool.and_eq_true, Bool.not_eq_true', beq_eq_false_iff_ne,
    decide_eq_true_eq] at h
  obtain ⟨⟨⟨h1, h2⟩, h3⟩, _⟩ := h
  have hn : c ≠ '\n' := by intro hc; subst hc; exact absurd h3 (by decide)
  have ht : c ≠ '\t' := by intro hc; subst hc; exact absurd h3 (by decide)
  have hr : c ≠ '\r' := by intro hc; subst hc; exact absurd h3 (by decide)
  simp [goEscapeChar, h1, h2, hn, ht, hr]

theorem goEscape_of_clean (v : List Char) (h : cleanVal v = true) : goEscape v = v := by
  induction v with
  | nil => rfl
  | cons c cs ih =>
    have h' : goPlainChar c = true ∧ cleanVal cs = true := by
      simpa [cleanVal, Bool.and_eq_true] using h
    simp [goEscape, goEscapeChar_of_plain c h'.1, ih h'.2]

/-- The quoted form of a clean value contains the value itself. -/
theorem occursB_goQuote_append (v rest : List Char) (h : cleanVal v = true) :
    occursB v (goQuote v ++ rest) = true := by
  have hq : goQuote v ++ rest = '"' :: (v ++ (['"'] ++ rest)) := by
    unfold goQuote
    rw [goEscape_of_clean v h]
    simp
  rw [hq]
  exact occursB_cons _ _ _
    (occursB_of_isPrefixOf _ _ (isPrefixOf_append_self _ _))

theorem occursB_goQuote (v : List Char) (h : cleanVal v = true) :
    occursB v (goQuote v) = true := by
  unfold goQuote
  rw [goEscape_of_clean v h]
  exact occursB_cons _ _ _
    (occursB_of_isPrefixOf _ _ (isPrefixOf_append_self _ _))

/-- C9 counterexample: a 403 whose `X-Error` header is `a\b` (backslash).
`%q` renders it as `"a\\b"`, so the error text does NOT contain the exact
header value. -/
def rBack : APIResponse := ⟨403, ['a', '\\', 'b'], [], [], [], [], [], [], []⟩

set_option maxRecDepth 8000 in
theorem dojson_backslash_header_not_contained :
    doJSON rBack = some (doJSONErrMsg rBack)
      ∧ occursB rBack.xError (doJSONErrMsg rBack) = false := by decide

/-- C9 (amended): on any non-200 status whose header values consist of
printable ASCII free of quote and backslash characters (every character `%q`
passes through unchanged), the error text `doJSON` returns contains each of
the eight header values verbatim: the X-Error text, the X-Error-Code, and
all six rate-limit values.  A value containing `%q`-escaped characters
appears only in escaped form. -/
theorem dojson_error_contains_clean_header_values (r : APIResponse)
    (hstatus : r.statusCode ≠ 200)
    (h1 : cleanVal r.xError = true) (h2 : cleanVal r.xErrorCode = true)
    (h3 : cleanVal r.xLimitUserLimit = true) (h4 : cleanVal r.xLimitUserRemaining = true)
    (h5 : cleanVal r.xLimitUserReset = true) (h6 : cleanVal r.xLimitKeyLimit = true)
    (h7 : cleanVal r.xLimitKeyRemaining = true) (h8 : cleanVal r.xLimitKeyReset = true) :
    doJSON r = some (doJSONErrMsg r)
      ∧ occursB r.xError (doJSONErrMsg r) = true
      ∧ occursB r.xErrorCode (doJSONErrMsg r) = true
      ∧ occursB r.xLimitUserLimit (doJSONErrMsg r) = true
      ∧ occursB r.xLimitUserRemaining (doJSONErrMsg r) = true
      ∧ occursB r.xLimitUserReset (doJSONErrMsg r) = true
      ∧ occursB r.xLimitKeyLimit (doJSONErrMsg r) = true
      ∧ occursB r.xLimitKeyRemaining (doJSONErrMsg r) = true
      ∧ occursB r.xLimitKeyReset (doJSONErrMsg r) = true := by
  refine ⟨by simp [doJSON, hstatus], ?_, ?_, ?_, ?_, ?_, ?_, ?_, ?_⟩
  all_goals unfold doJSONErrMsg
  all_goals simp only [List.append_assoc]
  · iterate 3 apply occursB_append_of_right
    exact occursB_goQuote_append _ _ h1
  · iterate 5 apply occursB_append_of_right
    exact occursB_goQuote_append _ _ h2
  · iterate 7 apply occursB_append_of_right
    exact occursB_goQuote_append _ _ h3
  · iterate 9 apply occursB_append_of_right
    exact occursB_goQuote_append _ _ h4
  · iterate 11 apply occursB_append_of_right
    exact occursB_goQuote_append _ _ h5
  · iterate 13 apply occursB_append_of_right
    exact occursB_goQuote_append _ _ h6
  · iterate 15 apply occursB_append_of_right
    exact occursB_goQuote_append _ _ h7
  · iterate 17 apply occursB_append_of_right
    exact occursB_goQuote _ h8

/-- The concrete headers from the spec's example. -/
def rC9 : APIResponse :=
  ⟨403, "user not authorized".data, "107".data, "100".data, "96".data,
    "25".data, "10000".data, "9999".data, "25".data⟩

theorem dojson_error_contains_clean_header_values_app :
    doJSON rC9 = some (doJSONErrMsg rC9)
      ∧ occursB rC9.xError (doJSONErrMsg rC9) = true
      ∧ occursB rC9.xErrorCode (doJSONErrMsg rC9) = true
      ∧ occursB rC9.xLimitUserLimit (doJSONErrMsg rC9) = true
      ∧ occursB rC9.xLimitUserRemaining (doJSONErrMsg rC9) = true
      ∧ occursB rC9.xLimitUserReset (doJSONErrMsg rC9) = true
      ∧ occursB rC9.xLimitKeyLimit (doJSONErrMsg rC9) = true
      ∧ occursB rC9.xLimitKeyRemaining (doJSONErrMsg rC9) = true
      ∧ occursB rC9.xLimitKeyReset (doJSONErrMsg rC9) = true :=
  dojson_error_contains_clean_header_values rC9 (by decide) (by decide) (by decide)
    (by decide) (by decide) (by decide) (by decide) (by decide) (by decide)

/-! ## Modify (api/modify.go lines 27-58) -/

/-- `api.ModifyResult` (the untyped `ActionErrors` array is not read by any
code under proof and is omitted). -/
structure ModifyResult where
  actionResults : List Bool
  status : Int
deriving DecidableEq, Repr

/-- Outcome of `Client.Modify`: a `PostJSON` error, a runtime panic from
indexing `actions[i]` out of range, or success with the log lines emitted
for failed actions. -/
inductive ModifyOutcome
  | err (e : String)
  | panicked
  | ok (res : ModifyResult) (logged : List (String × Int))
deriving DecidableEq, Repr

/-- The `for i, r := range res.ActionResults` loop: a `false` result logs
`actions[i]`; an index beyond `actions` is a panic (`none`). -/
def modifyLogLoop (actions : List Action) : Nat → List Bool → Option (List (String × Int))
  | _, [] => some []
  | i, r :: rs =>
    if r then modifyLogLoop actions (i + 1) rs
    else
      match actions[i]? with
      | some a => (modifyLogLoop actions (i + 1) rs).map (fun l => (a.action, a.itemID) :: l)
      | none => none

/-- `Client.Modify` given the decoded `PostJSON` outcome. -/
def Modify (actions : List Action) (post : Except String ModifyResult) : ModifyOutcome :=
  match post with
  | .error e => .err e
  | .ok res =>
    match modifyLogLoop actions 0 res.actionResults with
    | some logged => .ok res logged
    | none => .panicked

theorem modifyLogLoop_isSome (actions : List Action) :
    ∀ (rs : List Bool) (i : Nat), i + rs.length ≤ actions.length →
      ∃ l, modifyLogLoop actions i rs = some l := by
  intro rs
  induction rs with
  | nil => intro i _; exact ⟨[], rfl⟩
  | cons r rs ih =>
    intro i h
    have hlen : i + 1 + rs.length ≤ actions.length := by
      simpa [Nat.add_comm, Nat.add_left_comm, Nat.add_assoc] using h
    have hi : i < actions.length := by
      have := h
      simp [List.length_cons] at this
      omega
    cases r with
    | true =>
      obtain ⟨l, hl⟩ := ih (i + 1) hlen
      exact ⟨l, by simpa [modifyLogLoop] using hl⟩
    | false =>
      obtain ⟨l, hl⟩ := ih (i + 1) hlen
      have ha : actions[i]? = some actions[i] := List.getElem?_eq_getElem hi
      exact ⟨(actions[i].action, actions[i].itemID) :: l, by
        simp [modifyLogLoop, ha, hl]⟩

theorem modifyLogLoop_none (actions : List Action) :
    ∀ (rs : List Bool) (i j : Nat), rs[j]? = some false →
      actions.length ≤ i + j → modifyLogLoop actions i rs = none := by
  intro rs
  induction rs with
  | nil => intro i j hj _; simp at hj
  | cons r rs ih =>
    intro i j hj hlen
    cases j with
    | zero =>
      have hr : r = false := by simpa using hj
      subst hr
      have ha : actions[i]? = none := by
        apply List.getElem?_eq_none
        omega
      simp [modifyLogLoop, ha]
    | succ j =>
      have hj' : rs[j]? = some false := by simpa using hj
      have hlen' : actions.length ≤ (i + 1) + j := by omega
      have hrec := ih (i + 1) j hj' hlen'
      cases r with
      | true => simpa [modifyLogLoop] using hrec
      | false =>
        cases ha : actions[i]? with
        | none => simp [modifyLogLoop, ha]
        | some a => simp [modifyLogLoop, ha, hrec]

/-- C10 counterexample: a response carrying MORE action results than actions
does not necessarily index out of bounds — `actions[i]` is read only for a
`false` result, so extra `true` results complete normally. -/
theorem modify_extra_true_results_no_panic :
    Modify [NewDeleteAction 1] (.ok ⟨[true, true], 1⟩) = .ok ⟨[true, true], 1⟩ []
      ∧ ([NewDeleteAction 1] : List Action).length < ([true, true] : List Bool).length :=
  ⟨rfl, by decide⟩

/-- The loop also completes whenever no `false` result sits at an index at
or beyond the end of `actions` — regardless of how many results there are. -/
theorem modifyLogLoop_isSome_of_no_extra_false (actions : List Action) :
    ∀ (rs : List Bool) (i : Nat),
      (∀ j, actions.length ≤ i + j → rs[j]? ≠ some false) →
      ∃ l, modifyLogLoop actions i rs = some l := by
  intro rs
  induction rs with
  | nil => intro i _; exact ⟨[], rfl⟩
  | cons r rs ih =>
    intro i h
    have hrec : ∀ j, actions.length ≤ (i + 1) + j → rs[j]? ≠ some false := by
      intro j hj
      have hh := h (j + 1) (by omega)
      simpa using hh
    obtain ⟨l, hl⟩ := ih (i + 1) hrec
    cases r with
    | true => exact ⟨l, by simpa [modifyLogLoop] using hl⟩
    | false =>
      have hi : i < actions.length := by
        by_contra hge
        exact h 0 (by omega) (by simp)
      have ha : actions[i]? = some actions[i] := List.getElem?_eq_getElem hi
      exact ⟨(actions[i].action, actions[i].itemID) :: l, by simp [modifyLogLoop, ha, hl]⟩

/-- C10 (amended): `Modify` indexes `actions` by each position of the decoded
`action_results` whose value is `false`.  When the response has at most as
many results as actions this is always in bounds and `Modify` returns a
non-nil result with nil error (failures are only logged).  A response with
more results than actions makes the indexing out of bounds exactly when some
extra result (at an index at or beyond the number of actions) is `false`:
such a response panics, and conversely any response with no `false` result
at or beyond that boundary — in particular one whose extra results are all
`true` — completes normally. -/
theorem modify_indexing_bounds (actions : List Action) (res : ModifyResult) :
    (res.actionResults.length ≤ actions.length →
        ∃ logged, Modify actions (.ok res) = .ok res logged)
      ∧ ((∃ i, actions.length ≤ i ∧ res.actionResults[i]? = some false) →
        Modify actions (.ok res) = .panicked)
      ∧ ((∀ i, actions.length ≤ i → res.actionResults[i]? ≠ some false) →
        ∃ logged, Modify actions (.ok res) = .ok res logged) := by
  refine ⟨?_, ?_, ?_⟩
  · intro h
    obtain ⟨l, hl⟩ := modifyLogLoop_isSome actions res.actionResults 0 (by simpa using h)
    exact ⟨l, by simp [Modify, hl]⟩
  · rintro ⟨i, hi, hfalse⟩
    have h := modifyLogLoop_none actions res.actionResults 0 i hfalse (by omega)
    simp [Modify, h]
  · intro h
    obtain ⟨l, hl⟩ := modifyLogLoop_isSome_of_no_extra_false actions res.actionResults 0
      (fun j hj => h j (by omega))
    exact ⟨l, by simp [Modify, hl]⟩

theorem modify_indexing_bounds_app :
    (∃ logged, Modify [⟨"delete", 1⟩] (.ok ⟨[false], 1⟩) = .ok ⟨[false], 1⟩ logged)
      ∧ Modify [⟨"delete", 1⟩] (.ok ⟨[true, true, false], 1⟩) = .panicked
      ∧ (∃ logged, Modify [⟨"delete", 1⟩] (.ok ⟨[false, true], 1⟩)
          = .ok ⟨[false, true], 1⟩ logged) :=
  ⟨(modify_indexing_bounds [⟨"delete", 1⟩] ⟨[false], 1⟩).1 (by decide),
    (modify_indexing_bounds [⟨"delete", 1⟩] ⟨[true, true, false], 1⟩).2.1
      ⟨2, by decide, by decide⟩,
    (modify_indexing_bounds [⟨"delete", 1⟩] ⟨[false, true], 1⟩).2.2
      (by
        intro i hi
        rcases i with _ | (_ | n)
        · exact absurd hi (by decide)
        · decide
        · have h2 : ([false, true] : List Bool)[n + 2]? = none :=
            List.getElem?_eq_none (show 2 ≤ n + 2 by omega)
          simp [h2])⟩

end Pocket
